import Mathlib

/-!
# Swarm service control

A shallow embedding of `main.go`: the service matcher (`filterServices`), the
lifecycle operations (`stopServices`, `startServices`, `restartServices`), the
backup/restore engine (`backupServices`, `restoreServices`) and the command
dispatcher (`main`).

Every external command (`exec.Command(...)`) is a call to an oracle that sees
the commands run so far and answers with the command's output and error; the
commands run are recorded, in order, in the world's trace.  The backup file is
the only file the program touches and is part of the world.  Text printed on
standard output is not modelled.
-/

namespace SwarmServiceControl

/-- A Go string, as the sequence of its Unicode code points (valid UTF-8). -/
abbrev GoString := List Char

/-! ## The Go standard library functions the program calls -/

/-- The predicate `unicode.IsSpace`: the white space code points of Unicode. -/
def unicodeIsSpace (c : Char) : Bool :=
  let n := c.toNat
  (9 ≤ n && n ≤ 13) || n = 0x20 || n = 0x85 || n = 0xA0 || n = 0x1680 ||
    (0x2000 ≤ n && n ≤ 0x200A) || n = 0x2028 || n = 0x2029 || n = 0x202F ||
    n = 0x205F || n = 0x3000

/-- The function `strings.TrimSpace`: leading and trailing white space removed. -/
def stringsTrimSpace (s : GoString) : GoString :=
  ((s.dropWhile unicodeIsSpace).reverse.dropWhile unicodeIsSpace).reverse

/-- The function `strings.Fields`: the maximal runs of non-space characters. -/
def stringsFields : GoString → List GoString
  | [] => []
  | c :: cs =>
    if unicodeIsSpace c then stringsFields cs
    else
      match cs with
      | [] => [[c]]
      | d :: _ =>
        if unicodeIsSpace d then [c] :: stringsFields cs
        else
          match stringsFields cs with
          | [] => [[c]]
          | fld :: flds => (c :: fld) :: flds

/-- The function `strings.Split(s, sep)` for a separator of one character. -/
def stringsSplit (sep : Char) : GoString → List GoString
  | [] => [[]]
  | c :: cs =>
    if c = sep then [] :: stringsSplit sep cs
    else
      match stringsSplit sep cs with
      | [] => [[c]]
      | p :: ps => (c :: p) :: ps

/-- The function `strings.Join(xs, sep)` for a separator of one character. -/
def stringsJoin (sep : Char) : List GoString → GoString
  | [] => []
  | [x] => x
  | x :: y :: rest => x ++ sep :: stringsJoin sep (y :: rest)

/-- The function `strings.SplitN(s, sep, 2)` for a separator of one character:
the text before the first separator and, when there is one, the text after. -/
def stringsSplitN2 (sep : Char) : GoString → List GoString
  | [] => [[]]
  | c :: cs =>
    if c = sep then [[], cs]
    else
      match stringsSplitN2 sep cs with
      | [] => [[c]]
      | p :: ps => (c :: p) :: ps

/-- Whether `s` starts with `sub`. -/
def startsWith : GoString → GoString → Bool
  | _, [] => true
  | [], _ :: _ => false
  | c :: cs, d :: ds => c = d && startsWith cs ds

/-- The function `strings.Contains(s, sub)`: `sub` occurs somewhere in `s`. -/
def stringsContains : GoString → GoString → Bool
  | [], sub => startsWith [] sub
  | c :: cs, sub => startsWith (c :: cs) sub || stringsContains cs sub

/-- The function `strings.ToLower`, given the table `unicode.ToLower`. -/
def stringsToLower (lower : Char → Char) (s : GoString) : GoString :=
  s.map lower

/-- The helper `dropCR` of `bufio.ScanLines`: a final carriage return removed. -/
def dropCR (line : GoString) : GoString :=
  if line.getLast? = some '\r' then line.dropLast else line

/-- The pieces of a text between line feeds; a text that ends in a line feed,
or is empty, has no last empty piece. -/
def rawLines : GoString → List GoString
  | [] => []
  | c :: cs =>
    if c = '\n' then [] :: rawLines cs
    else
      match rawLines cs with
      | [] => [[c]]
      | l :: ls => (c :: l) :: ls

/-- The number of bytes of the UTF-8 encoding of a code point. -/
def utf8RuneLen (c : Char) : Nat :=
  if c.toNat < 0x80 then 1 else if c.toNat < 0x800 then 2 else if c.toNat < 0x10000 then 3 else 4

/-- The length of a Go string in bytes. -/
def byteLen : GoString → Nat
  | [] => 0
  | c :: cs => utf8RuneLen c + byteLen cs

/-- The constant `bufio.MaxScanTokenSize`, the size of a scanner's buffer. -/
def maxScanTokenSize : Nat := 64 * 1024

/-- The tokens a `bufio.Scanner` with the default `ScanLines` and the default
buffer yields over a text: its lines, without the line feed and a carriage
return before it.  A line fits the buffer, with its line feed or with room
left to see the end of the file, when it is shorter than `maxScanTokenSize`
bytes; at the first line that does not fit `Scan` returns false, so that line
and all lines after it are not yielded.  The source never reads the scanner's
error. -/
def scanLines (content : GoString) : List GoString :=
  ((rawLines content).takeWhile (fun line => decide (byteLen line < maxScanTokenSize))).map dropCR

/-! ## The world: command oracle, trace and backup file -/

deriving instance DecidableEq for Except

/-- What running an external command gives: its output and its error. -/
structure CmdResult where
  output : GoString
  err : Option GoString
deriving DecidableEq

/-- A Go map from string to string: its entries, with distinct keys. -/
abbrev GoMap := List (GoString × GoString)

/-- Everything outside the program: the command oracle (the commands run so
far, the command line, the result), whether creating or opening the backup
file fails, the table `unicode.ToLower`, and the order in which a `range`
over a map visits its entries. -/
structure Env where
  exec : List (List GoString) → List GoString → CmdResult
  createErr : Option GoString
  openErr : Option GoString
  toLower : Char → Char
  mapOrder : GoMap → GoMap
  mapOrder_perm : ∀ m, (mapOrder m).Perm m

/-- The observable state: the command lines run so far, oldest first, and the
content of `swarm-service-backup.txt` when the file exists. -/
structure World where
  trace : List (List GoString)
  file : Option GoString
deriving DecidableEq

/-- Run one command: ask the oracle and record the command line. -/
def run (env : Env) (w : World) (argv : List GoString) : CmdResult × World :=
  (env.exec w.trace argv, { w with trace := w.trace ++ [argv] })

/-- Command line `docker service ls --format {{.Name}}`. -/
def cmdListNames : List GoString :=
  ["docker", "service", "ls", "--format", "\x7b\x7b.Name\x7d\x7d"].map String.toList

/-- Command line `docker service inspect --format {{.Spec.Mode.Replicated.Replicas}} service`. -/
def cmdInspect (service : GoString) : List GoString :=
  ["docker", "service", "inspect", "--format",
    "\x7b\x7b.Spec.Mode.Replicated.Replicas\x7d\x7d"].map String.toList ++ [service]

/-- Command line `docker service scale name=replicas`. -/
def cmdScale (name replicas : GoString) : List GoString :=
  ["docker", "service", "scale"].map String.toList ++ [name ++ '=' :: replicas]

/-- Command line `docker service ls --format "{{.Name}} {{.Replicas}}"`. -/
def cmdListReplicas : List GoString :=
  ["docker", "service", "ls", "--format",
    "\x7b\x7b.Name\x7d\x7d \x7b\x7b.Replicas\x7d\x7d"].map String.toList

/-! ## The program -/

/-- Source `getDeployedServices`. -/
def getDeployedServices (env : Env) (w : World) : Except GoString (List GoString) × World :=
  match run env w cmdListNames with
  | (r, w1) =>
    match r.err with
    | some err => (Except.error ("error getting running services: ".toList ++ err), w1)
    | none => (Except.ok (stringsSplit '\n' (stringsTrimSpace r.output)), w1)

/-- The inner loop of `filterServices`: the first deployed service whose lower
case form contains the lower case form of `service`. -/
def firstMatch (lower : Char → Char) (service : GoString) : List GoString → Option GoString
  | [] => none
  | runningService :: rest =>
    if stringsContains (stringsToLower lower runningService) (stringsToLower lower service)
    then some runningService
    else firstMatch lower service rest

/-- The outer loop of `filterServices`, with `matchedServices` as accumulator. -/
def filterLoop (lower : Char → Char) (allDeployedServices : List GoString) :
    List GoString → List GoString → List GoString
  | [], matchedServices => matchedServices
  | service :: rest, matchedServices =>
    match firstMatch lower service allDeployedServices with
    | some runningService =>
      filterLoop lower allDeployedServices rest (matchedServices ++ [runningService])
    | none => filterLoop lower allDeployedServices rest matchedServices

/-- Source `filterServices`. -/
def filterServices (env : Env) (w : World) (services : List GoString) :
    Except GoString (List GoString) × World :=
  match getDeployedServices env w with
  | (Except.error err, w1) => (Except.error err, w1)
  | (Except.ok allDeployedServices, w1) =>
    (Except.ok (filterLoop env.toLower allDeployedServices services []), w1)

/-- Source `getScale`. -/
def getScale (env : Env) (w : World) (service : GoString) : Except GoString GoString × World :=
  match run env w (cmdInspect service) with
  | (r, w1) =>
    match r.err with
    | some err => (Except.error ("error getting service scale: ".toList ++ err), w1)
    | none => (Except.ok (stringsTrimSpace r.output), w1)

/-- Source `stopServices`: the returned error, if any, and the world after. -/
def stopServices (env : Env) : World → List GoString → Option GoString × World
  | w, [] => (none, w)
  | w, service :: rest =>
    match run env w (cmdScale service "0".toList) with
    | (r, w1) =>
      match r.err with
      | some err => (some ("error stopping service: ".toList ++ err), w1)
      | none => stopServices env w1 rest

/-- The loop of `startServices` over the entries in the order they are visited.
The index `replicaArray[0]` never fails: `strings.SplitN` gives at least one
piece. -/
def startLoop (env : Env) : World → List (GoString × GoString) → Option GoString × World
  | w, [] => (none, w)
  | w, (name, replicas) :: rest =>
    let replicaArray := stringsSplitN2 '/' replicas
    let replicas := replicaArray.headD []
    match run env w (cmdScale name replicas) with
    | (r, w1) =>
      match r.err with
      | some err => (some ("error starting service: ".toList ++ err), w1)
      | none => startLoop env w1 rest

/-- Source `startServices`. -/
def startServices (env : Env) (w : World) (services : GoMap) : Option GoString × World :=
  startLoop env w (env.mapOrder services)

/-- The text of `fmt.Errorf("error restarting service %s: %s", service, err)`. -/
def errRestart (service err : GoString) : GoString :=
  "error restarting service ".toList ++ service ++ ": ".toList ++ err

/-- Source `restartServices`. -/
def restartServices (env : Env) : World → List GoString → Option GoString × World
  | w, [] => (none, w)
  | w, service :: rest =>
    match getScale env w service with
    | (Except.error err, w1) => (some (errRestart service err), w1)
    | (Except.ok scale, w1) =>
      match stopServices env w1 [service] with
      | (some err, w2) => (some (errRestart service err), w2)
      | (none, w2) =>
        match startServices env w2 [(service, scale)] with
        | (some err, w3) => (some (errRestart service err), w3)
        | (none, w3) => restartServices env w3 rest

/-- The write loop of `backupServices`: every non-empty piece is written to
the file, followed by a line feed. -/
def writeLines : GoString → List GoString → GoString
  | file, [] => file
  | file, service :: rest =>
    if service ≠ [] then writeLines (file ++ service ++ ['\n']) rest
    else writeLines file rest

/-- Source `backupServices`.  The writes to the file just created are taken to
succeed; the source ignores their result. -/
def backupServices (env : Env) (w : World) : World :=
  match run env w cmdListReplicas with
  | (r, w1) =>
    match r.err with
    | some _ => w1
    | none =>
      match env.createErr with
      | some _ => w1
      | none => { w1 with file := some (writeLines [] (stringsSplit '\n' r.output)) }

/-- The assignment `services[key] = value` on a Go map. -/
def mapInsert (key value : GoString) : GoMap → GoMap
  | [] => [(key, value)]
  | (k, v) :: rest =>
    if k = key then (k, value) :: rest else (k, v) :: mapInsert key value rest

/-- The scan loop of `restoreServices`: `none` is the run-time panic of an
index out of range, on a line with fewer than two fields. -/
def buildServices : GoMap → List GoString → Option GoMap
  | services, [] => some services
  | services, line :: rest =>
    match stringsFields line with
    | name :: replicas :: _ => buildServices (mapInsert name replicas services) rest
    | _ => none

/-- How a call of `restoreServices` ends. -/
inductive Ending where
  | returned
  | panicked
deriving DecidableEq

/-- Source `restoreServices`.  Opening fails when the file does not exist or
when the environment says so; an error of `startServices` is dropped. -/
def restoreServices (env : Env) (w : World) : Ending × World :=
  match env.openErr, w.file with
  | some _, _ => (Ending.returned, w)
  | none, none => (Ending.returned, w)
  | none, some content =>
    match buildServices [] (scanLines content) with
    | none => (Ending.panicked, w)
    | some services => (Ending.returned, (startServices env w services).2)

/-- The command line flags. -/
structure Flags where
  services : GoString
  restart : Bool
  stop : Bool
  backup : Bool
  restore : Bool
  all : Bool
deriving DecidableEq

/-- The first check of `main`: no action flag is set. -/
def noAction (f : Flags) : Bool :=
  !f.restart && !f.stop && !f.backup && !f.restore

/-- The second check of `main`: two action flags are set together. -/
def twoActions (f : Flags) : Bool :=
  (f.restart && f.stop) || (f.restart && f.backup) || (f.restart && f.restore) ||
    (f.stop && f.backup) || (f.stop && f.restore) || (f.backup && f.restore)

/-- The part of `main` that computes `filteredServices` (lines 184 to 197);
an error is an exit with code 1. -/
def mainSelect (env : Env) (w : World) (f : Flags) : Except GoString (List GoString) × World :=
  if f.all then
    match getDeployedServices env w with
    | (Except.error err, w1) => (Except.error err, w1)
    | (Except.ok runningServices, w1) =>
      filterServices env w1 (stringsSplit ',' (stringsJoin ',' runningServices))
  else filterServices env w (stringsSplit ',' f.services)

/-- The part of `main` that runs the selected action (lines 199 to 216); the
result is the exit code: 1 after `os.Exit(1)`, 2 after a panic, 0 otherwise. -/
def mainDispatch (env : Env) (w : World) (f : Flags) (filteredServices : List GoString) :
    Nat × World :=
  match (if f.restart then restartServices env w filteredServices else (none, w)) with
  | (some _, w1) => (1, w1)
  | (none, w1) =>
    match (if f.stop then stopServices env w1 filteredServices else (none, w1)) with
    | (some _, w2) => (1, w2)
    | (none, w2) =>
      let w3 := if f.backup then backupServices env w2 else w2
      if f.restore then
        match restoreServices env w3 with
        | (Ending.panicked, w4) => (2, w4)
        | (Ending.returned, w4) => (0, w4)
      else (0, w3)

/-- The part of `main` after the validation of the flags (lines 184 to 216). -/
def mainRun (env : Env) (w : World) (f : Flags) : Nat × World :=
  match mainSelect env w f with
  | (Except.error _, w1) => (1, w1)
  | (Except.ok filteredServices, w1) => mainDispatch env w1 f filteredServices

/-- Source `main`: the exit code and the world after the run. -/
def main (env : Env) (w : World) (f : Flags) : Nat × World :=
  if noAction f then (1, w)
  else if twoActions f then (1, w)
  else mainRun env w f

/-! ## Specification-side definitions -/

/-- The first name of `L`, in listing order, whose lower case form contains
the lower case form of the fragment `f` as a substring. -/
def firstMatchSpec (lower : Char → Char) (L : List GoString) (f : GoString) : Option GoString :=
  L.find? (fun n => decide (stringsToLower lower f <:+: stringsToLower lower n))

/-- The matcher as the specification words it: one first match per fragment,
in input order, nothing for a fragment without a match. -/
def filterServicesSpec (lower : Char → Char) (L F : List GoString) : List GoString :=
  F.filterMap (firstMatchSpec lower L)

/-- An oracle that answers a listing of names with `names` and every other
command with `other`, always without error. -/
def execConst (names other : String) : List (List GoString) → List GoString → CmdResult :=
  fun _ argv =>
    if argv = cmdListNames then ⟨names.toList, none⟩ else ⟨other.toList, none⟩

/-- An environment in which every file operation succeeds, lower case is the
ASCII one and a map is visited in the order of its entries. -/
def envOf (exec : List (List GoString) → List GoString → CmdResult) : Env where
  exec := exec
  createErr := none
  openErr := none
  toLower := Char.toLower
  mapOrder := id
  mapOrder_perm := fun m => List.Perm.refl m

/-- The world before the program runs: no command run, no backup file. -/
def world0 : World := ⟨[], none⟩

/-- The part of a replica count before its first slash; the whole count when
it has no slash. -/
def firstComponent (count : GoString) : GoString :=
  count.takeWhile (fun c => decide (c ≠ '/'))

/-- The set-scale command lines for a sequence of (name, count) entries: each
name is scaled to the first component of its count. -/
def scaleCalls (entries : List (GoString × GoString)) : List (List GoString) :=
  entries.map (fun e => cmdScale e.1 (firstComponent e.2))

/-- Every set-scale command succeeds, whatever was run before. -/
def ScaleAlwaysOk (env : Env) : Prop :=
  ∀ hist name replicas, (env.exec hist (cmdScale name replicas)).err = none

/-- An oracle that fails, with `exit status 1`, exactly on the command lines
`bad`, and answers every other command with `other`. -/
def execFailOn (bad : List (List GoString)) (other : String) :
    List (List GoString) → List GoString → CmdResult :=
  fun _ argv =>
    if argv ∈ bad then ⟨[], some "exit status 1".toList⟩ else ⟨other.toList, none⟩

/-- The number of action flags (restart, stop, backup, restore) that are set. -/
def countActions (f : Flags) : Nat :=
  f.restart.toNat + f.stop.toNat + f.backup.toNat + f.restore.toNat

/-- The (name, replica count) pair a line stands for: its first two fields. -/
def linePair (line : GoString) : Option (GoString × GoString) :=
  match stringsFields line with
  | name :: replicas :: _ => some (name, replicas)
  | _ => none

/-- The (name, replica summary) pairs a listing output shows, line by line. -/
def listed (out : GoString) : List (GoString × GoString) :=
  (stringsSplit '\n' out).filterMap linePair

/-- The scale of each service of the cluster, by name. -/
abbrev Cluster := GoString → Option GoString

/-- The contract of the mutation adapter: a set-scale sets the scale of the
named service and leaves every other service as it is. -/
def setScale (c : Cluster) (name value : GoString) : Cluster :=
  fun n => if n = name then some value else c n

/-- The cluster after the set-scale commands `scaleCalls entries`, in order. -/
def applyScaleCalls (c : Cluster) (entries : List (GoString × GoString)) : Cluster :=
  entries.foldl (fun c e => setScale c e.1 (firstComponent e.2)) c

/-- A line of `maxScanTokenSize` letters a, a space and the count 3: two
fields, and too long for the scanner's buffer. -/
def longLine : GoString :=
  List.replicate maxScanTokenSize 'a' ++ [' ', '3']

/-- A backup file of three lines: api 2, the long line, and `last`. -/
def fileWithLongLine (last : String) : GoString :=
  "api 2".toList ++ '\n' :: (longLine ++ '\n' :: last.toList)

/-- A cluster whose service api has scale 3. -/
def clusterApi3 : Cluster :=
  fun n => if n = "api".toList then some "3".toList else none

/-! ## Lemmas on the library functions -/

theorem startsWith_iff (s sub : GoString) : startsWith s sub = true ↔ sub <+: s := by
  induction sub generalizing s with
  | nil => cases s <;> simp [startsWith]
  | cons d ds ih =>
    cases s with
    | nil => simp [startsWith]
    | cons c cs =>
      simp only [startsWith, Bool.and_eq_true, decide_eq_true_eq, ih, List.cons_prefix_cons]
      constructor
      · rintro ⟨h1, h2⟩; exact ⟨h1.symm, h2⟩
      · rintro ⟨h1, h2⟩; exact ⟨h1.symm, h2⟩

theorem stringsContains_iff (s sub : GoString) : stringsContains s sub = true ↔ sub <:+: s := by
  induction s with
  | nil =>
    simp only [stringsContains, startsWith_iff]
    constructor
    · intro h; exact h.isInfix
    · intro h
      have : sub = [] := List.eq_nil_of_infix_nil h
      subst this; exact List.prefix_refl _
  | cons c cs ih =>
    simp only [stringsContains, Bool.or_eq_true, startsWith_iff, ih, List.infix_cons_iff]

theorem firstMatch_eq_spec (lower : Char → Char) (f : GoString) (L : List GoString) :
    firstMatch lower f L = firstMatchSpec lower L f := by
  induction L with
  | nil => rfl
  | cons n rest ih =>
    unfold firstMatch firstMatchSpec
    rw [List.find?_cons]
    by_cases h : stringsToLower lower f <:+: stringsToLower lower n
    · have hc := (stringsContains_iff _ _).2 h
      simp [hc, h]
    · have hc : stringsContains (stringsToLower lower n) (stringsToLower lower f) = false := by
        cases hb : stringsContains (stringsToLower lower n) (stringsToLower lower f)
        · rfl
        · exact absurd ((stringsContains_iff _ _).1 hb) h
      simp only [hc, h, decide_False, Bool.false_eq_true, if_false]
      exact ih

theorem filterLoop_eq_spec (lower : Char → Char) (L F acc : List GoString) :
    filterLoop lower L F acc = acc ++ filterServicesSpec lower L F := by
  induction F generalizing acc with
  | nil => simp [filterLoop, filterServicesSpec]
  | cons f rest ih =>
    unfold filterLoop
    rw [firstMatch_eq_spec]
    cases hm : firstMatchSpec lower L f with
    | none => simp [ih, filterServicesSpec, List.filterMap_cons, hm]
    | some n => simp [ih, filterServicesSpec, List.filterMap_cons, hm]

theorem filterServicesSpec_mem (lower : Char → Char) (L F : List GoString) (n : GoString)
    (h : n ∈ filterServicesSpec lower L F) : n ∈ L := by
  unfold filterServicesSpec at h
  rw [List.mem_filterMap] at h
  obtain ⟨f, _, hf⟩ := h
  exact List.mem_of_find?_eq_some hf

theorem stringsSplitN2_ne_nil (sep : Char) (s : GoString) : stringsSplitN2 sep s ≠ [] := by
  cases s with
  | nil => simp [stringsSplitN2]
  | cons c cs =>
    unfold stringsSplitN2
    by_cases h : c = sep
    · simp [h]
    · simp only [h, if_false]
      cases stringsSplitN2 sep cs <;> simp

theorem stringsSplitN2_head (s : GoString) :
    (stringsSplitN2 '/' s).headD [] = firstComponent s := by
  induction s with
  | nil => rfl
  | cons c cs ih =>
    unfold stringsSplitN2 firstComponent
    by_cases h : c = '/'
    · simp [h]
    · simp only [h, if_false, List.takeWhile_cons, ne_eq, not_false_eq_true, decide_True, if_true]
      cases hs : stringsSplitN2 '/' cs with
      | nil => exact absurd hs (stringsSplitN2_ne_nil _ _)
      | cons p ps => rw [hs] at ih; simpa [firstComponent] using ih

theorem stringsSplit_mem_no_sep (sep : Char) (s p : GoString) (hp : p ∈ stringsSplit sep s) :
    sep ∉ p := by
  induction s generalizing p with
  | nil =>
    simp only [stringsSplit, List.mem_singleton] at hp
    subst hp; simp
  | cons c cs ih =>
    unfold stringsSplit at hp
    by_cases hc : c = sep
    · simp only [hc, if_true, List.mem_cons] at hp
      rcases hp with rfl | hp
      · simp
      · exact ih p hp
    · simp only [hc, if_false] at hp
      cases hs : stringsSplit sep cs with
      | nil =>
        rw [hs] at hp
        simp only [List.mem_singleton] at hp
        subst hp
        simpa using fun e : sep = c => hc e.symm
      | cons q qs =>
        rw [hs] at hp
        simp only [List.mem_cons] at hp
        rcases hp with rfl | hp
        · have hq := ih q (by rw [hs]; simp)
          simp only [List.mem_cons, not_or]
          exact ⟨fun e => hc e.symm, hq⟩
        · exact ih p (by rw [hs]; exact List.mem_cons_of_mem _ hp)

theorem rawLines_append_newline (l rest : GoString) (h : '\n' ∉ l) :
    rawLines (l ++ '\n' :: rest) = l :: rawLines rest := by
  induction l with
  | nil => simp [rawLines]
  | cons c cs ih =>
    have hc : ¬ c = '\n' := fun e => h (by simp [e])
    have hcs : '\n' ∉ cs := fun e => h (List.mem_cons_of_mem _ e)
    simp [rawLines, hc, ih hcs]

theorem writeLines_acc (acc : GoString) (pieces : List GoString) :
    writeLines acc pieces = acc ++ writeLines [] pieces := by
  induction pieces generalizing acc with
  | nil => simp [writeLines]
  | cons p ps ih =>
    unfold writeLines
    by_cases hp : p = []
    · simp only [hp, ne_eq, not_true_eq_false, if_false]
      exact ih acc
    · simp only [hp, ne_eq, not_false_eq_true, if_true]
      rw [ih (acc ++ p ++ ['\n']), ih ([] ++ p ++ ['\n'])]
      simp

theorem rawLines_writeLines (pieces : List GoString) (h : ∀ p ∈ pieces, '\n' ∉ p) :
    rawLines (writeLines [] pieces) = pieces.filter (fun p => decide (p ≠ [])) := by
  induction pieces with
  | nil => rfl
  | cons p ps ih =>
    have ihp := ih (fun q hq => h q (List.mem_cons_of_mem _ hq))
    unfold writeLines
    by_cases hp : p = []
    · simp only [hp, ne_eq, not_true_eq_false, if_false, ihp]
      simp
    · simp only [hp, ne_eq, not_false_eq_true, if_true]
      rw [writeLines_acc]
      simp only [List.nil_append, List.append_assoc, List.singleton_append]
      rw [rawLines_append_newline p _ (h p (by simp)), ihp]
      simp [hp]

theorem stringsFields_append_space (l : GoString) (s : Char) (hs : unicodeIsSpace s = true) :
    stringsFields (l ++ [s]) = stringsFields l := by
  induction l with
  | nil => simp [stringsFields, hs]
  | cons c cs ih =>
    by_cases hc : unicodeIsSpace c = true
    · simp only [List.cons_append, stringsFields, hc, if_true]
      exact ih
    · cases cs with
      | nil => simp [stringsFields, hc, hs]
      | cons d ds =>
        simp only [List.cons_append] at ih ⊢
        rw [stringsFields, stringsFields.eq_def (c :: d :: ds)]
        simp only [hc, Bool.false_eq_true, if_false, ih]

theorem stringsFields_dropCR (l : GoString) : stringsFields (dropCR l) = stringsFields l := by
  unfold dropCR
  split
  · rename_i h
    have hl : l.dropLast ++ ['\r'] = l := List.dropLast_append_getLast? '\r' (by simp [h])
    conv_rhs => rw [← hl]
    rw [stringsFields_append_space _ _ (by decide)]
  · rfl

theorem linePair_dropCR (l : GoString) : linePair (dropCR l) = linePair l := by
  unfold linePair
  rw [stringsFields_dropCR]

theorem byteLen_append (a b : GoString) : byteLen (a ++ b) = byteLen a + byteLen b := by
  induction a with
  | nil => simp [byteLen]
  | cons c cs ih => rw [List.cons_append, byteLen, byteLen, ih, Nat.add_assoc]

theorem byteLen_replicate_a (n : Nat) : byteLen (List.replicate n 'a') = n := by
  induction n with
  | zero => rfl
  | succ k ih =>
    rw [List.replicate_succ, byteLen, ih]
    have h : utf8RuneLen 'a' = 1 := by decide
    omega

theorem longLine_too_long : ¬ byteLen longLine < maxScanTokenSize := by
  unfold longLine
  rw [byteLen_append, byteLen_replicate_a]
  omega

theorem longLine_no_newline : '\n' ∉ longLine := by
  unfold longLine
  intro h
  rcases List.mem_append.1 h with h | h
  · exact absurd (List.eq_of_mem_replicate h) (by decide)
  · exact absurd h (by decide)

theorem rawLines_fileWithLongLine (last : String) :
    rawLines (fileWithLongLine last) = "api 2".toList :: longLine :: rawLines last.toList := by
  unfold fileWithLongLine
  rw [rawLines_append_newline _ _ (by decide), rawLines_append_newline _ _ longLine_no_newline]

theorem scanLines_fileWithLongLine (last : String) :
    scanLines (fileWithLongLine last) = ["api 2".toList] := by
  have h1 : decide (byteLen "api 2".toList < maxScanTokenSize) = true := by decide
  have h2 : decide (byteLen longLine < maxScanTokenSize) = false :=
    decide_eq_false longLine_too_long
  have h3 : List.map dropCR ["api 2".toList] = ["api 2".toList] := by decide
  unfold scanLines
  rw [rawLines_fileWithLongLine, List.takeWhile_cons]
  simp only [h1, if_true]
  rw [List.takeWhile_cons]
  simp only [h2, Bool.false_eq_true, if_false]
  exact h3

theorem takeWhile_all {α : Type} (p : α → Bool) (l : List α) (h : ∀ x ∈ l, p x = true) :
    l.takeWhile p = l := by
  induction l with
  | nil => rfl
  | cons a t ih =>
    simp only [List.takeWhile, h a (by simp)]
    rw [ih (fun x hx => h x (List.mem_cons_of_mem _ hx))]

theorem mem_takeWhile_reached {α : Type} (p : α → Bool) (pre post : List α) (x : α)
    (hpre : ∀ y ∈ pre, p y = true) (hx : p x = true) :
    x ∈ (pre ++ x :: post).takeWhile p := by
  induction pre with
  | nil => simp [List.takeWhile, hx]
  | cons a t ih =>
    simp only [List.cons_append, List.takeWhile, hpre a (by simp)]
    exact List.mem_cons_of_mem _ (ih (fun y hy => hpre y (List.mem_cons_of_mem _ hy)))

theorem scanLines_of_fit (content : GoString)
    (hfit : ∀ line ∈ rawLines content, byteLen line < maxScanTokenSize) :
    scanLines content = (rawLines content).map dropCR := by
  unfold scanLines
  rw [takeWhile_all _ _ (fun x hx => decide_eq_true (hfit x hx))]

theorem mem_scanLines_of_reached (content line : GoString) (pre post : List GoString)
    (hlines : rawLines content = pre ++ line :: post)
    (hpre : ∀ l ∈ pre, byteLen l < maxScanTokenSize)
    (hline : byteLen line < maxScanTokenSize) : dropCR line ∈ scanLines content := by
  unfold scanLines
  rw [hlines]
  exact List.mem_map_of_mem _
    (mem_takeWhile_reached _ pre post line (fun y hy => decide_eq_true (hpre y hy))
      (decide_eq_true hline))

/-! ## Lemmas on the lifecycle operations -/

theorem mapOrder_singleton (env : Env) (e : GoString × GoString) : env.mapOrder [e] = [e] :=
  List.perm_singleton.1 (env.mapOrder_perm [e])

theorem startLoop_cons_ok (env : Env) (w : World) (name replicas : GoString)
    (rest : List (GoString × GoString))
    (h : (env.exec w.trace (cmdScale name (firstComponent replicas))).err = none) :
    startLoop env w ((name, replicas) :: rest)
      = startLoop env ⟨w.trace ++ [cmdScale name (firstComponent replicas)], w.file⟩ rest := by
  simp only [startLoop, run, stringsSplitN2_head, h]

theorem startLoop_cons_err (env : Env) (w : World) (name replicas err : GoString)
    (rest : List (GoString × GoString))
    (h : (env.exec w.trace (cmdScale name (firstComponent replicas))).err = some err) :
    startLoop env w ((name, replicas) :: rest)
      = (some ("error starting service: ".toList ++ err),
          ⟨w.trace ++ [cmdScale name (firstComponent replicas)], w.file⟩) := by
  simp only [startLoop, run, stringsSplitN2_head, h]

theorem startLoop_all_ok (env : Env) (hok : ScaleAlwaysOk env)
    (entries : List (GoString × GoString)) (w : World) :
    startLoop env w entries = (none, ⟨w.trace ++ scaleCalls entries, w.file⟩) := by
  induction entries generalizing w with
  | nil => simp [startLoop, scaleCalls]
  | cons e rest ih =>
    obtain ⟨name, replicas⟩ := e
    rw [startLoop_cons_ok env w name replicas rest (hok _ _ _), ih]
    simp [scaleCalls]

theorem stopServices_single (env : Env) (w : World) (service : GoString) :
    stopServices env w [service]
      = (match (env.exec w.trace (cmdScale service "0".toList)).err with
          | some err => some ("error stopping service: ".toList ++ err)
          | none => none,
         ⟨w.trace ++ [cmdScale service "0".toList], w.file⟩) := by
  simp only [stopServices, run]
  cases (env.exec w.trace (cmdScale service "0".toList)).err <;> rfl

theorem startServices_single (env : Env) (w : World) (service scale : GoString) :
    startServices env w [(service, scale)]
      = (match (env.exec w.trace (cmdScale service (firstComponent scale))).err with
          | some err => some ("error starting service: ".toList ++ err)
          | none => none,
         ⟨w.trace ++ [cmdScale service (firstComponent scale)], w.file⟩) := by
  unfold startServices
  rw [mapOrder_singleton]
  cases h : (env.exec w.trace (cmdScale service (firstComponent scale))).err with
  | some err => rw [startLoop_cons_err env w service scale err [] h]
  | none => rw [startLoop_cons_ok env w service scale [] h]; rfl

theorem getScale_eq (env : Env) (w : World) (service : GoString) :
    getScale env w service
      = (match (env.exec w.trace (cmdInspect service)).err with
          | some err => Except.error ("error getting service scale: ".toList ++ err)
          | none => Except.ok (stringsTrimSpace (env.exec w.trace (cmdInspect service)).output),
         ⟨w.trace ++ [cmdInspect service], w.file⟩) := by
  simp only [getScale, run]
  cases (env.exec w.trace (cmdInspect service)).err <;> rfl

theorem restartServices_cons (env : Env) (w : World) (service : GoString)
    (rest : List GoString) :
    restartServices env w (service :: rest)
      = (match getScale env w service with
        | (Except.error err, w1) => (some (errRestart service err), w1)
        | (Except.ok scale, w1) =>
          match stopServices env w1 [service] with
          | (some err, w2) => (some (errRestart service err), w2)
          | (none, w2) =>
            match startServices env w2 [(service, scale)] with
            | (some err, w3) => (some (errRestart service err), w3)
            | (none, w3) => restartServices env w3 rest) := rfl

theorem restartServices_append (env : Env) (pre rest : List GoString) (w w1 : World)
    (hpre : restartServices env w pre = (none, w1)) :
    restartServices env w (pre ++ rest) = restartServices env w1 rest := by
  induction pre generalizing w with
  | nil =>
    simp only [restartServices, Prod.mk.injEq, true_and] at hpre
    subst hpre; rfl
  | cons s tl ih =>
    simp only [List.cons_append]
    rw [restartServices_cons] at hpre ⊢
    cases hg : getScale env w s with
    | mk r wa =>
      rw [hg] at hpre
      cases r with
      | error e => simp at hpre
      | ok scale =>
        simp only at hpre ⊢
        cases hs : stopServices env wa [s] with
        | mk r2 wb =>
          rw [hs] at hpre
          cases r2 with
          | some e => simp at hpre
          | none =>
            simp only at hpre ⊢
            cases ht : startServices env wb [(s, scale)] with
            | mk r3 wc =>
              rw [ht] at hpre
              cases r3 with
              | some e => simp at hpre
              | none =>
                simp only at hpre ⊢
                exact ih wc hpre

/-! ## Lemmas on the restore -/

theorem mapInsert_fresh (k v : GoString) (m : GoMap) (h : k ∉ m.map Prod.fst) :
    mapInsert k v m = m ++ [(k, v)] := by
  induction m with
  | nil => rfl
  | cons e rest ih =>
    obtain ⟨a, b⟩ := e
    have hak : ¬ a = k := fun e => h (by simp [e])
    have hr : k ∉ rest.map Prod.fst := fun e => h (by simp at e ⊢; exact Or.inr e)
    simp [mapInsert, hak, ih hr]

theorem linePair_none_iff (line : GoString) :
    linePair line = none ↔ (stringsFields line).length < 2 := by
  unfold linePair
  rcases stringsFields line with _ | ⟨a, _ | ⟨b, t⟩⟩ <;> simp

theorem buildServices_cons_some (services : GoMap) (line : GoString) (rest : List GoString)
    (name replicas : GoString) (h : linePair line = some (name, replicas)) :
    buildServices services (line :: rest)
      = buildServices (mapInsert name replicas services) rest := by
  unfold linePair at h
  rw [buildServices]
  rcases hf : stringsFields line with _ | ⟨a, _ | ⟨b, t⟩⟩
  · rw [hf] at h; simp at h
  · rw [hf] at h; simp at h
  · rw [hf] at h
    simp only [Option.some.injEq, Prod.mk.injEq] at h
    obtain ⟨rfl, rfl⟩ := h
    rfl

theorem buildServices_cons_none (services : GoMap) (line : GoString) (rest : List GoString)
    (h : linePair line = none) : buildServices services (line :: rest) = none := by
  unfold linePair at h
  rw [buildServices]
  rcases hf : stringsFields line with _ | ⟨a, _ | ⟨b, t⟩⟩
  · rfl
  · rfl
  · rw [hf] at h; simp at h

theorem buildServices_none_iff (services : GoMap) (lines : List GoString) :
    buildServices services lines = none ↔ ∃ line ∈ lines, (stringsFields line).length < 2 := by
  induction lines generalizing services with
  | nil => simp [buildServices]
  | cons line rest ih =>
    cases hp : linePair line with
    | none =>
      rw [buildServices_cons_none services line rest hp]
      simp only [true_iff]
      exact ⟨line, by simp, (linePair_none_iff line).1 hp⟩
    | some e =>
      obtain ⟨name, replicas⟩ := e
      rw [buildServices_cons_some services line rest name replicas hp, ih]
      have hl : ¬ (stringsFields line).length < 2 := by
        rw [← linePair_none_iff, hp]; simp
      simp [hl]

theorem restoreServices_opened (env : Env) (w : World) (content : GoString)
    (hopen : env.openErr = none) (hfile : w.file = some content) :
    restoreServices env w
      = (match buildServices [] (scanLines content) with
        | none => (Ending.panicked, w)
        | some services => (Ending.returned, (startServices env w services).2)) := by
  unfold restoreServices
  rw [hopen, hfile]

theorem buildServices_unique (lines : List GoString) (acc : GoMap)
    (hform : ∀ line ∈ lines, 2 ≤ (stringsFields line).length)
    (hnd : ((acc ++ lines.filterMap linePair).map Prod.fst).Nodup) :
    buildServices acc lines = some (acc ++ lines.filterMap linePair) := by
  induction lines generalizing acc with
  | nil => simp [buildServices]
  | cons line rest ih =>
    cases hp : linePair line with
    | none =>
      have := (linePair_none_iff line).1 hp
      have := hform line (by simp)
      omega
    | some e =>
      obtain ⟨k, v⟩ := e
      rw [List.filterMap_cons, hp] at hnd ⊢
      simp only at hnd ⊢
      have hk : k ∉ acc.map Prod.fst := by
        intro hmem
        rw [List.map_append, List.map_cons] at hnd
        exact (List.nodup_append.1 hnd).2.2 hmem (by simp)
      rw [buildServices_cons_some acc line rest k v hp, mapInsert_fresh k v acc hk,
        ih (acc ++ [(k, v)]) (fun l hl => hform l (List.mem_cons_of_mem _ hl))
          (by simpa using hnd)]
      simp

theorem scaleAlwaysOk_execConst (names other : String) :
    ScaleAlwaysOk (envOf (execConst names other)) := by
  intro hist name replicas
  simp only [envOf, execConst]
  split <;> rfl

theorem scanLines_backup (out : GoString)
    (hfit : ∀ line ∈ stringsSplit '\n' out, byteLen line < maxScanTokenSize) :
    scanLines (writeLines [] (stringsSplit '\n' out))
      = ((stringsSplit '\n' out).filter (fun p => decide (p ≠ []))).map dropCR := by
  have hraw := rawLines_writeLines _ (fun p hp => stringsSplit_mem_no_sep '\n' out p hp)
  rw [scanLines_of_fit _ (by
    intro line hl
    rw [hraw] at hl
    exact hfit line (List.mem_filter.1 hl).1), hraw]

theorem restoreServices_fileWithLongLine (last : String) :
    restoreServices (envOf (execConst "" "")) ⟨[], some (fileWithLongLine last)⟩
      = (Ending.returned,
          ⟨[cmdScale "api".toList "2".toList], some (fileWithLongLine last)⟩) := by
  have hb : buildServices [] ["api 2".toList] = some [("api".toList, "2".toList)] := by decide
  have hc : scaleCalls [("api".toList, "2".toList)] = [cmdScale "api".toList "2".toList] := by
    decide
  rw [restoreServices_opened _ _ (fileWithLongLine last) rfl rfl,
    scanLines_fileWithLongLine, hb]
  simp only [startServices]
  rw [startLoop_all_ok _ (scaleAlwaysOk_execConst "" "")]
  show (Ending.returned, (⟨[] ++ scaleCalls [("api".toList, "2".toList)],
    some (fileWithLongLine last)⟩ : World)) = _
  rw [hc]
  rfl

theorem filterMap_linePair_backup (pieces : List GoString) :
    ((pieces.filter (fun p => decide (p ≠ []))).map dropCR).filterMap linePair
      = pieces.filterMap linePair := by
  induction pieces with
  | nil => rfl
  | cons p ps ih =>
    by_cases hp : p = []
    · subst hp
      simpa [linePair, stringsFields] using ih
    · simp only [ne_eq, hp, not_false_eq_true, decide_True, List.filter_cons_of_pos,
        List.map_cons, List.filterMap_cons, linePair_dropCR]
      rw [← ih]

theorem applyScaleCalls_other (c : Cluster) (entries : List (GoString × GoString))
    (name : GoString) (h : name ∉ entries.map Prod.fst) :
    applyScaleCalls c entries name = c name := by
  induction entries generalizing c with
  | nil => rfl
  | cons e rest ih =>
    have h1 : ¬ name = e.1 := fun he => h (by simp [he])
    have h2 : name ∉ rest.map Prod.fst := fun he => h (by simp at he ⊢; exact Or.inr he)
    show applyScaleCalls (setScale c e.1 (firstComponent e.2)) rest name = c name
    rw [ih _ h2]
    simp [setScale, h1]

theorem applyScaleCalls_mem (c : Cluster) (entries : List (GoString × GoString))
    (hnd : (entries.map Prod.fst).Nodup) (e : GoString × GoString) (he : e ∈ entries) :
    applyScaleCalls c entries e.1 = some (firstComponent e.2) := by
  induction entries generalizing c with
  | nil => simp at he
  | cons a rest ih =>
    rw [List.map_cons, List.nodup_cons] at hnd
    show applyScaleCalls (setScale c a.1 (firstComponent a.2)) rest e.1 = _
    rcases List.mem_cons.1 he with rfl | hr
    · rw [applyScaleCalls_other _ rest e.1 hnd.1]
      simp [setScale]
    · exact ih _ hnd.2 hr

/-! ## Lemmas on the dispatcher -/

theorem main_eq (env : Env) (w : World) (f : Flags) :
    main env w f = if countActions f = 1 then mainRun env w f else (1, w) := by
  obtain ⟨services, restart, stop, backup, restore, all⟩ := f
  cases restart <;> cases stop <;> cases backup <;> cases restore <;>
    simp [main, noAction, twoActions, countActions]

/-! ## The claims -/

/-- Claim C1: when the listing succeeds with the names `L`, `filterServices`
returns without error, for each fragment of `F` in input order, the first name
of `L` whose lower case form contains the fragment's lower case form, and
nothing for a fragment that matches no name; every returned name is a member
of `L` and there is at most one entry per fragment. -/
theorem filterServices_first_match (env : Env) (w : World) (L F : List GoString)
    (hL : (getDeployedServices env w).1 = Except.ok L) :
    (filterServices env w F).1 = Except.ok (filterServicesSpec env.toLower L F) ∧
      (∀ n ∈ filterServicesSpec env.toLower L F, n ∈ L) ∧
      (filterServicesSpec env.toLower L F).length ≤ F.length := by
  refine ⟨?_, fun n hn => filterServicesSpec_mem _ _ _ n hn, List.length_filterMap_le _ _⟩
  unfold filterServices
  cases hg : getDeployedServices env w with
  | mk res w1 =>
    rw [hg] at hL
    simp only at hL
    subst hL
    simp [filterLoop_eq_spec]

/-- Witness of C1: with the names web-frontend, web-backend and cache listed,
the fragment web selects web-frontend. -/
theorem filterServices_first_match_witness :
    (getDeployedServices (envOf (execConst "web-frontend\nweb-backend\ncache\n" "")) world0).1
        = Except.ok ["web-frontend".toList, "web-backend".toList, "cache".toList] ∧
      (filterServices (envOf (execConst "web-frontend\nweb-backend\ncache\n" "")) world0
        ["web".toList]).1 = Except.ok ["web-frontend".toList] :=
  ⟨by decide,
   (filterServices_first_match (envOf (execConst "web-frontend\nweb-backend\ncache\n" ""))
      world0 ["web-frontend".toList, "web-backend".toList, "cache".toList] ["web".toList]
      (by decide)).1.trans (by decide)⟩

/-- Claim C2, refuted as stated: the scale read answers 3/3, every call
succeeds, and the third call sets the scale to 3, not to the captured 3/3. -/
theorem restartServices_captured_scale_counterexample :
    (getScale (envOf (execConst "" "3/3\n")) world0 "web".toList).1 = Except.ok "3/3".toList ∧
      restartServices (envOf (execConst "" "3/3\n")) world0 ["web".toList]
        = (none, ⟨[cmdInspect "web".toList, cmdScale "web".toList "0".toList,
                    cmdScale "web".toList "3".toList], none⟩) ∧
      (restartServices (envOf (execConst "" "3/3\n")) world0 ["web".toList]).2.trace
        ≠ [cmdInspect "web".toList, cmdScale "web".toList "0".toList,
            cmdScale "web".toList "3/3".toList] := by
  decide

/-- Claim C2, amended: when the scale read of `S`, the set-scale to 0 and the
set-scale that follows all succeed, `restartServices [S]` runs exactly three
commands, in this order: the scale read of `S`, set-scale of `S` to 0, and
set-scale of `S` to the first component (the part before the first slash) of
the scale captured by the read; it returns no error. -/
theorem restartServices_single_calls (env : Env) (w : World) (S out : GoString)
    (hread : env.exec w.trace (cmdInspect S) = ⟨out, none⟩)
    (hstop : (env.exec (w.trace ++ [cmdInspect S]) (cmdScale S "0".toList)).err = none)
    (hstart : (env.exec (w.trace ++ [cmdInspect S, cmdScale S "0".toList])
        (cmdScale S (firstComponent (stringsTrimSpace out)))).err = none) :
    (getScale env w S).1 = Except.ok (stringsTrimSpace out) ∧
      restartServices env w [S]
        = (none, ⟨w.trace ++ [cmdInspect S, cmdScale S "0".toList,
                    cmdScale S (firstComponent (stringsTrimSpace out))], w.file⟩) := by
  constructor
  · rw [getScale_eq, hread]
  · rw [restartServices_cons, getScale_eq, hread]
    simp only
    rw [stopServices_single]
    simp only [hstop]
    rw [startServices_single]
    simp only [List.append_assoc, List.singleton_append, List.cons_append, List.nil_append,
      hstart, restartServices]

/-- Witness of the amended C2: a scale read that answers 2. -/
theorem restartServices_single_calls_witness :
    restartServices (envOf (execConst "" "2\n")) world0 ["web".toList]
      = (none, ⟨[cmdInspect "web".toList, cmdScale "web".toList "0".toList,
                  cmdScale "web".toList "2".toList], none⟩) :=
  (restartServices_single_calls (envOf (execConst "" "2\n")) world0 "web".toList "2\n".toList
    (by decide) (by decide) (by decide)).2

/-- Claim C6: let the services before `S` in the list be restarted without
error, leaving the world `w1`.  If the scale read of `S` fails, the error is
returned and the scale read is the last command run: no set-scale follows it.
If the read succeeds and the stop fails, or both succeed and the start fails,
the error is returned and that failing command is the last one run.  In each
case no command is run for the services after `S`, and the commands run for
the earlier services stay in the trace, which only grows. -/
theorem restartServices_abort (env : Env) (w w1 : World) (pre post : List GoString)
    (S : GoString) (hpre : restartServices env w pre = (none, w1)) :
    (∀ err, (env.exec w1.trace (cmdInspect S)).err = some err →
        restartServices env w (pre ++ S :: post)
          = (some (errRestart S ("error getting service scale: ".toList ++ err)),
              ⟨w1.trace ++ [cmdInspect S], w1.file⟩)) ∧
      (∀ err, (env.exec w1.trace (cmdInspect S)).err = none →
        (env.exec (w1.trace ++ [cmdInspect S]) (cmdScale S "0".toList)).err = some err →
        restartServices env w (pre ++ S :: post)
          = (some (errRestart S ("error stopping service: ".toList ++ err)),
              ⟨w1.trace ++ [cmdInspect S, cmdScale S "0".toList], w1.file⟩)) ∧
      (∀ err scale, (env.exec w1.trace (cmdInspect S)).err = none →
        (env.exec (w1.trace ++ [cmdInspect S]) (cmdScale S "0".toList)).err = none →
        scale = firstComponent (stringsTrimSpace (env.exec w1.trace (cmdInspect S)).output) →
        (env.exec (w1.trace ++ [cmdInspect S, cmdScale S "0".toList])
          (cmdScale S scale)).err = some err →
        restartServices env w (pre ++ S :: post)
          = (some (errRestart S ("error starting service: ".toList ++ err)),
              ⟨w1.trace ++ [cmdInspect S, cmdScale S "0".toList, cmdScale S scale], w1.file⟩)) ∧
      (∃ calls, w1.trace = w.trace ++ calls) := by
  refine ⟨?_, ?_, ?_, ?_⟩
  · intro err h
    rw [restartServices_append env pre (S :: post) w w1 hpre, restartServices_cons,
      getScale_eq, h]
  · intro err h1 h2
    rw [restartServices_append env pre (S :: post) w w1 hpre, restartServices_cons,
      getScale_eq, h1]
    simp only
    rw [stopServices_single]
    simp only [h2, List.append_assoc, List.singleton_append]
  · intro err scale h1 h2 hs h3
    subst hs
    rw [restartServices_append env pre (S :: post) w w1 hpre, restartServices_cons,
      getScale_eq, h1]
    simp only
    rw [stopServices_single]
    simp only [h2]
    rw [startServices_single]
    simp only [List.append_assoc, List.singleton_append, List.cons_append, List.nil_append, h3]
  · clear post S
    induction pre generalizing w with
    | nil =>
      simp only [restartServices, Prod.mk.injEq, true_and] at hpre
      subst hpre; exact ⟨[], by simp⟩
    | cons s tl ih =>
      rw [restartServices_cons, getScale_eq] at hpre
      cases h1 : (env.exec w.trace (cmdInspect s)).err with
      | some e => rw [h1] at hpre; simp at hpre
      | none =>
        rw [h1] at hpre
        simp only at hpre
        rw [stopServices_single] at hpre
        cases h2 : (env.exec (w.trace ++ [cmdInspect s]) (cmdScale s "0".toList)).err with
        | some e => rw [h2] at hpre; simp at hpre
        | none =>
          rw [h2] at hpre
          simp only at hpre
          rw [startServices_single] at hpre
          cases h3 : (env.exec (w.trace ++ [cmdInspect s] ++ [cmdScale s "0".toList])
              (cmdScale s (firstComponent
                (stringsTrimSpace (env.exec w.trace (cmdInspect s)).output)))).err with
          | some e => rw [h3] at hpre; simp at hpre
          | none =>
            rw [h3] at hpre
            simp only at hpre
            obtain ⟨calls, hc⟩ := ih _ hpre
            refine ⟨[cmdInspect s] ++ ([cmdScale s "0".toList] ++
              ([cmdScale s (firstComponent
                (stringsTrimSpace (env.exec w.trace (cmdInspect s)).output))] ++ calls)), ?_⟩
            rw [hc]; simp only [List.append_assoc]

/-- Witness of C6: service a restarts, the scale read of b fails, and nothing
is run for c. -/
theorem restartServices_abort_witness :
    restartServices (envOf (execFailOn [cmdInspect "b".toList] "2\n")) world0
        ["a".toList, "b".toList, "c".toList]
      = (some (errRestart "b".toList
                "error getting service scale: exit status 1".toList),
          ⟨[cmdInspect "a".toList, cmdScale "a".toList "0".toList,
            cmdScale "a".toList "2".toList, cmdInspect "b".toList], none⟩) :=
  (restartServices_abort (envOf (execFailOn [cmdInspect "b".toList] "2\n")) world0
    ⟨[cmdInspect "a".toList, cmdScale "a".toList "0".toList, cmdScale "a".toList "2".toList],
      none⟩ ["a".toList] ["c".toList] "b".toList (by decide)).1 "exit status 1".toList
    (by decide)

/-- Claim C10: when the number of action flags set is not exactly one, `main`
exits with code 1 and the world is unchanged, so no command was run; when
exactly one is set, the validation does not exit and `main` goes on with the
rest of the run. -/
theorem main_validation (env : Env) (w : World) (f : Flags) :
    main env w f = if countActions f = 1 then mainRun env w f else (1, w) :=
  main_eq env w f

/-- Claim C9, the code at two failing inputs: a restore whose set-scale
command fails ends with exit code 0, and so does a backup whose listing
command fails; the claim gives exit code 1 for both. -/
theorem main_exit_code_failing_inputs :
    ((envOf (execFailOn [cmdScale "api".toList "2".toList] "")).exec [cmdListNames]
        (cmdScale "api".toList "2".toList)).err = some "exit status 1".toList ∧
      main (envOf (execFailOn [cmdScale "api".toList "2".toList] ""))
          ⟨[], some "api 2\n".toList⟩ ⟨[], false, false, false, true, false⟩
        = (0, ⟨[cmdListNames, cmdScale "api".toList "2".toList], some "api 2\n".toList⟩) ∧
      ((envOf (execFailOn [cmdListReplicas] "")).exec [cmdListNames] cmdListReplicas).err
        = some "exit status 1".toList ∧
      main (envOf (execFailOn [cmdListReplicas] "")) world0
          ⟨[], false, false, true, false, false⟩
        = (0, ⟨[cmdListNames, cmdListReplicas], none⟩) := by
  decide

/-- Claim C8, the code at a failing input: the live list is web-frontend, web;
with the all flag the sequence handed to the action is web-frontend,
web-frontend, and a stop scales web-frontend to 0 twice and never web. -/
theorem main_all_misses_service :
    (getDeployedServices (envOf (execConst "web-frontend\nweb\n" "")) world0).1
        = Except.ok ["web-frontend".toList, "web".toList] ∧
      (mainSelect (envOf (execConst "web-frontend\nweb\n" "")) world0
          ⟨[], false, true, false, false, true⟩).1
        = Except.ok ["web-frontend".toList, "web-frontend".toList] ∧
      main (envOf (execConst "web-frontend\nweb\n" "")) world0
          ⟨[], false, true, false, false, true⟩
        = (0, ⟨[cmdListNames, cmdListNames, cmdScale "web-frontend".toList "0".toList,
                cmdScale "web-frontend".toList "0".toList], none⟩) := by
  decide

/-- Claim C7, refuted as stated: the file holds the line api 2, a line too
long for the scanner and the line worker, which has one field; the restore
does not panic and runs the set-scale of api. -/
theorem restoreServices_malformed_counterexample :
    (∃ line ∈ rawLines (fileWithLongLine "worker\n"), (stringsFields line).length < 2) ∧
      restoreServices (envOf (execConst "" "")) ⟨[], some (fileWithLongLine "worker\n")⟩
        = (Ending.returned,
            ⟨[cmdScale "api".toList "2".toList], some (fileWithLongLine "worker\n")⟩) :=
  ⟨⟨"worker".toList,
    by rw [rawLines_fileWithLongLine]
       exact List.mem_cons_of_mem _ (List.mem_cons_of_mem _ (by decide)),
    by decide⟩,
   restoreServices_fileWithLongLine "worker\n"⟩

/-- Claim C7, amended: when the backup file is opened and has a line with
fewer than two fields such that this line and every line before it are
shorter than the scanner's buffer (65536 bytes), `restoreServices` ends in the
index-out-of-range panic and the world is unchanged: no set-scale command is
run, not even for the lines before the malformed one. -/
theorem restoreServices_malformed (env : Env) (w : World) (content line : GoString)
    (pre post : List GoString)
    (hopen : env.openErr = none) (hfile : w.file = some content)
    (hlines : rawLines content = pre ++ line :: post)
    (hpre : ∀ l ∈ pre, byteLen l < maxScanTokenSize)
    (hline : byteLen line < maxScanTokenSize)
    (hbad : (stringsFields line).length < 2) :
    restoreServices env w = (Ending.panicked, w) := by
  rw [restoreServices_opened env w content hopen hfile,
    (buildServices_none_iff [] (scanLines content)).2
      ⟨dropCR line, mem_scanLines_of_reached content line pre post hlines hpre hline,
        by rw [stringsFields_dropCR]; exact hbad⟩]

/-- Witness of the amended C7: the second line of the file has a name and no
count. -/
theorem restoreServices_malformed_witness :
    restoreServices (envOf (execConst "" "")) ⟨[], some "api 2\nworker\n".toList⟩
      = (Ending.panicked, ⟨[], some "api 2\nworker\n".toList⟩) :=
  restoreServices_malformed (envOf (execConst "" "")) ⟨[], some "api 2\nworker\n".toList⟩
    "api 2\nworker\n".toList "worker".toList ["api 2".toList] [] rfl rfl (by decide)
    (by decide) (by decide) (by decide)

/-- Claim C3, refuted as stated: the listing shows api 1/3, one task running
of a scale of 3; the restore after the backup sets the scale of api to 1, so a
cluster whose service api had scale 3 at backup time has it at 1 afterwards. -/
theorem backup_restore_round_trip_counterexample :
    listed "api 1/3\n".toList = [("api".toList, "1/3".toList)] ∧
      stringsSplitN2 '/' "1/3".toList = ["1".toList, "3".toList] ∧
      restoreServices (envOf (execConst "" "api 1/3\n"))
          (backupServices (envOf (execConst "" "api 1/3\n")) world0)
        = (Ending.returned,
            ⟨[cmdListReplicas, cmdScale "api".toList "1".toList], some "api 1/3\n".toList⟩) ∧
      clusterApi3 "api".toList = some "3".toList ∧
      applyScaleCalls clusterApi3 (listed "api 1/3\n".toList) "api".toList
        = some "1".toList := by
  decide

/-- Claim C3, amended: let the listing of backup succeed with an output whose
lines are shorter than the scanner's buffer and, when not empty, show a name
and a replica summary, the names distinct, and let the file operations and the
set-scale commands succeed.  Then the restore that follows the backup runs,
for every service listed, one set-scale command whose value is the first
component of the summary listed for it, and nothing else; on every cluster
these commands leave each listed service at that first component and every
other service as it was. -/
theorem backup_restore_round_trip (env : Env) (w : World) (out : GoString)
    (hlist : env.exec w.trace cmdListReplicas = ⟨out, none⟩)
    (hcreate : env.createErr = none) (hopen : env.openErr = none)
    (hscale : ScaleAlwaysOk env)
    (hfit : ∀ line ∈ stringsSplit '\n' out, byteLen line < maxScanTokenSize)
    (hform : ∀ line ∈ stringsSplit '\n' out, line ≠ [] → 2 ≤ (stringsFields line).length)
    (huniq : ((listed out).map Prod.fst).Nodup) :
    restoreServices env (backupServices env w)
        = (Ending.returned,
            ⟨w.trace ++ cmdListReplicas :: scaleCalls (env.mapOrder (listed out)),
              some (writeLines [] (stringsSplit '\n' out))⟩) ∧
      (env.mapOrder (listed out)).Perm (listed out) ∧
      (∀ e ∈ listed out, cmdScale e.1 (firstComponent e.2)
        ∈ scaleCalls (env.mapOrder (listed out))) ∧
      (∀ cluster : Cluster,
        (∀ e ∈ listed out, applyScaleCalls cluster (env.mapOrder (listed out)) e.1
          = some (firstComponent e.2)) ∧
        (∀ name, name ∉ (listed out).map Prod.fst →
          applyScaleCalls cluster (env.mapOrder (listed out)) name = cluster name)) := by
  have hperm := env.mapOrder_perm (listed out)
  have hb : backupServices env w
      = ⟨w.trace ++ [cmdListReplicas], some (writeLines [] (stringsSplit '\n' out))⟩ := by
    simp only [backupServices, run, hlist, hcreate]
  have hlines : (scanLines (writeLines [] (stringsSplit '\n' out))).filterMap linePair
      = listed out := by
    rw [scanLines_backup out hfit, filterMap_linePair_backup]; rfl
  have hform2 : ∀ line ∈ scanLines (writeLines [] (stringsSplit '\n' out)),
      2 ≤ (stringsFields line).length := by
    intro line hl
    rw [scanLines_backup out hfit, List.mem_map] at hl
    obtain ⟨p, hp, rfl⟩ := hl
    rw [List.mem_filter] at hp
    rw [stringsFields_dropCR]
    exact hform p hp.1 (by simpa using hp.2)
  have hbuild : buildServices [] (scanLines (writeLines [] (stringsSplit '\n' out)))
      = some (listed out) := by
    rw [buildServices_unique _ [] hform2 (by rw [List.nil_append, hlines]; exact huniq),
      List.nil_append, hlines]
  refine ⟨?_, hperm, ?_, ?_⟩
  · rw [hb, restoreServices_opened env _ _ hopen rfl, hbuild]
    simp only [startServices]
    rw [startLoop_all_ok env hscale]
    simp
  · intro e he
    exact List.mem_map.2 ⟨e, hperm.mem_iff.2 he, rfl⟩
  · intro cluster
    constructor
    · intro e he
      exact applyScaleCalls_mem cluster _ ((hperm.map Prod.fst).nodup_iff.2 huniq) e
        (hperm.mem_iff.2 he)
    · intro name hn
      exact applyScaleCalls_other cluster _ name
        (fun h => hn ((hperm.map Prod.fst).mem_iff.1 h))

/-- Witness of the amended C3: the listing shows api 2/2 and worker 0/0. -/
theorem backup_restore_round_trip_witness :
    restoreServices (envOf (execConst "" "api 2/2\nworker 0/0\n"))
        (backupServices (envOf (execConst "" "api 2/2\nworker 0/0\n")) world0)
      = (Ending.returned,
          ⟨[cmdListReplicas, cmdScale "api".toList "2".toList,
            cmdScale "worker".toList "0".toList], some "api 2/2\nworker 0/0\n".toList⟩) :=
  (backup_restore_round_trip (envOf (execConst "" "api 2/2\nworker 0/0\n")) world0
    "api 2/2\nworker 0/0\n".toList (by decide) rfl rfl
    (scaleAlwaysOk_execConst "" "api 2/2\nworker 0/0\n") (by decide) (by decide)
    (by decide)).1.trans (by decide)

end SwarmServiceControl
